import Mathlib

/-!
Verification of the serial command/response protocol engine of the
Python-Arduino-Command-API library (`Arduino/arduino.py`).

The development shallowly embeds the protocol engine:

* `build_cmd_str` — the command framer (`build_cmd_str` in the source);
* `get_version` / `find_port` — the discovery handshake and port scan,
  modelled over an abstract list of candidate-port behaviours, recording
  the open/close events the scan performs;
* the pin/I2C operations — modelled as the sequence of transport actions
  (`flushInput` / `write` / `flush` / `readLine`) each method body performs;
* the `I2CScan` read loop — modelled step-indexed over a stream of reply
  lines, with explicit fuel, so that (non)termination is expressible;
* `close` — modelled as a transition on a transport state carrying an
  open/closed flag.
-/

set_option autoImplicit false

namespace ArduinoSpec

/-- Python's `s.replace("\r\n", "")` on the character list: scan left to
right, removing each non-overlapping occurrence of CR LF. -/
def removeCRLF : List Char → List Char
  | [] => []
  | '\r' :: '\n' :: rest => removeCRLF rest
  | c :: rest => c :: removeCRLF rest

/-- The `readline().replace` idiom used throughout the source: strip CR LF
occurrences from a read line. -/
def stripCRLF (s : String) : String := String.mk (removeCRLF s.data)

/-- Python's `'%'.join(args)` for a list of strings. -/
def args_join : List String → String
  | [] => ""
  | [a] => a
  | a :: rest => a ++ "%" ++ args_join rest

/-- Model of `build_cmd_str(cmd, args)` from the source: if `args` is truthy (a
non-empty sequence) the argument segment is the arguments joined with `%`,
otherwise it is the empty string; the frame is
`"@{cmd}%{args}$!"` assembled from those pieces.  Arguments are taken
already in their string representation (`map(str, args)`). -/
def build_cmd_str (cmd : String) (args : List String) : String :=
  let argStr := if args.isEmpty then "" else args_join args
  "@" ++ cmd ++ "%" ++ argStr ++ "$!"

theorem intercalate_go_spec (as : List String) :
    ∀ acc, String.intercalate.go acc "%" as = args_join (acc :: as) := by
  induction as with
  | nil => intro acc; rfl
  | cons b r ih =>
    intro acc
    show String.intercalate.go (acc ++ "%" ++ b) "%" r = _
    rw [ih]
    cases r with
    | nil => simp [args_join]
    | cons c r' => simp [args_join, String.append_assoc]

theorem args_join_eq_intercalate (args : List String) :
    args_join args = String.intercalate "%" args := by
  cases args with
  | nil => rfl
  | cons a rest =>
    show args_join (a :: rest) = String.intercalate.go a "%" rest
    rw [intercalate_go_spec]

/-- C3: the frame is always `@` + name + `%` + (args intercalated with `%`)
+ `$!`, and in particular `build_cmd_str "version" [] = "@version%$!"`. -/
theorem build_cmd_str_frame :
    (∀ (cmd : String) (args : List String),
       build_cmd_str cmd args =
         "@" ++ cmd ++ "%" ++ String.intercalate "%" args ++ "$!") ∧
    build_cmd_str "version" [] = "@version%$!" := by
  constructor
  · intro cmd args
    cases args with
    | nil => simp [build_cmd_str, String.intercalate]
    | cons a rest =>
      simp [build_cmd_str, args_join_eq_intercalate]
  · rfl

/-! ### The inverse parse of a frame (split on `@`, `%`, `$!`) -/

/-- Split a character list on `'%'`: returns the first `%`-free group and
the list of the remaining groups. -/
def splitPercent : List Char → List Char × List (List Char)
  | [] => ([], [])
  | c :: cs =>
    let r := splitPercent cs
    if c = '%' then ([], r.1 :: r.2) else (c :: r.1, r.2)

/-- The inverse parse described by the spec: drop the leading `@`, drop the
trailing `$!`, split the remainder on `%`; the first group is the command
name and the remaining groups are the argument strings. -/
def parse_frame (s : String) : String × List String :=
  let inner := (s.data.drop 1).dropLast.dropLast
  let r := splitPercent inner
  (String.mk r.1, r.2.map String.mk)

theorem splitPercent_no_pct (a : List Char) (h : '%' ∉ a) :
    splitPercent a = (a, []) := by
  induction a with
  | nil => rfl
  | cons c cs ih =>
    have hc : c ≠ '%' := fun hc => h (hc ▸ List.mem_cons_self c cs)
    have hcs : '%' ∉ cs := fun hm => h (List.mem_cons_of_mem c hm)
    simp [splitPercent, ih hcs, hc]

theorem splitPercent_append_pct (a : List Char) (r : List Char) (h : '%' ∉ a) :
    splitPercent (a ++ '%' :: r) = (a, (splitPercent r).1 :: (splitPercent r).2) := by
  induction a with
  | nil => simp [splitPercent]
  | cons c cs ih =>
    have hc : c ≠ '%' := fun hc => h (hc ▸ List.mem_cons_self c cs)
    have hcs : '%' ∉ cs := fun hm => h (List.mem_cons_of_mem c hm)
    simp [splitPercent, ih hcs, hc]

theorem splitPercent_args (as : List String) :
    ∀ a : String, (∀ x ∈ a :: as, '%' ∉ x.data) →
      splitPercent ((args_join (a :: as)).data) = (a.data, as.map String.data) := by
  induction as with
  | nil =>
    intro a h
    exact splitPercent_no_pct a.data (h a (List.mem_cons_self a []))
  | cons b bs ih =>
    intro a h
    have ha : '%' ∉ a.data := h a (List.mem_cons_self a _)
    have hdata : (args_join (a :: b :: bs)).data =
        a.data ++ '%' :: (args_join (b :: bs)).data := by
      show (a ++ "%" ++ args_join (b :: bs)).data = _
      simp [String.data_append]
    rw [hdata, splitPercent_append_pct a.data _ ha,
      ih b (fun x hx => h x (List.mem_cons_of_mem a hx))]
    simp

theorem map_mk_map_data (l : List String) : (l.map String.data).map String.mk = l := by
  induction l with
  | nil => rfl
  | cons a r ih => simp [ih]

theorem dropLast_dropLast_append (l : List Char) :
    ((l ++ ['$', '!']).dropLast).dropLast = l := by
  have h : l ++ ['$', '!'] = (l ++ ['$']) ++ ['!'] := by simp
  rw [h]
  simp

/-- C4 counterexample: an argument whose string form contains `%` breaks
the exact roundtrip — `build_cmd_str "c" ["a%b"]` parses back as the two
arguments `["a", "b"]`, not the original `["a%b"]`. -/
theorem parse_frame_roundtrip_fails :
    parse_frame (build_cmd_str "c" ["a%b"]) ≠ ("c", ["a%b"]) := by decide

/-- C4 (amended): when the command name and every argument string are free
of the separator `%` and the argument list is non-empty, encoding with
`build_cmd_str` and applying the inverse parse recovers the name and the
argument strings exactly. -/
theorem parse_frame_build_cmd_str (cmd : String) (args : List String)
    (hcmd : '%' ∉ cmd.data) (hargs : ∀ x ∈ args, '%' ∉ x.data)
    (hne : args ≠ []) :
    parse_frame (build_cmd_str cmd args) = (cmd, args) := by
  obtain ⟨a, as, rfl⟩ : ∃ a as, args = a :: as := by
    cases args with
    | nil => exact absurd rfl hne
    | cons a as => exact ⟨a, as, rfl⟩
  have hdata : (build_cmd_str cmd (a :: as)).data =
      '@' :: ((cmd.data ++ '%' :: (args_join (a :: as)).data) ++ ['$', '!']) := by
    show ("@" ++ cmd ++ "%" ++ args_join (a :: as) ++ "$!").data = _
    simp [String.data_append]
  unfold parse_frame
  rw [hdata]
  simp only [List.drop_succ_cons, List.drop_zero, dropLast_dropLast_append]
  rw [splitPercent_append_pct cmd.data _ hcmd, splitPercent_args as a hargs]
  simp only [List.map_cons]
  rw [map_mk_map_data]

/-- C4 amended, witness: a concrete `%`-free frame roundtrips. -/
theorem parse_frame_build_cmd_str_witness :
    parse_frame (build_cmd_str "dw" ["5"]) = ("dw", ["5"]) :=
  parse_frame_build_cmd_str "dw" ["5"] (by decide) (by decide) (by decide)

/-! ### Transport actions performed by the operation methods

Each method body of class `Arduino` is a straight-line sequence of calls on
the serial handle `self.sr`; we record that sequence as a list of
actions. -/

/-- One call on the serial transport: `sr.flushInput()`, `sr.write(frame)`,
`sr.flush()`, `sr.readline()`, `sr.close()`. -/
inductive Action
  | flushInput
  | write (frame : String)
  | flush
  | readLine
  | closePort
deriving DecidableEq

/-- Model of `digitalWrite(pin, val)`: negate the pin when `val == "LOW"`, then
write the `dw` frame and flush.  The source performs no `flushInput`. -/
def digitalWrite_trace (pin : Int) (val : String) : List Action :=
  let pin_ := if val = "LOW" then -pin else pin
  [Action.write (build_cmd_str "dw" [toString pin_]), Action.flush]

/-- Model of `analogWrite(pin, val)`: clamp `val` at 255 above and 0 below, then
write the `aw` frame and flush.  The source performs no `flushInput`. -/
def analogWrite_trace (pin val : Int) : List Action :=
  let val_ := if val > 255 then (255 : Int) else if val < 0 then 0 else val
  [Action.write (build_cmd_str "aw" [toString pin, toString val_]), Action.flush]

/-- Model of `analogRead(pin)`: flush input, write the `ar` frame, flush, read one
line. -/
def analogRead_trace (pin : Int) : List Action :=
  [Action.flushInput, Action.write (build_cmd_str "ar" [toString pin]),
   Action.flush, Action.readLine]

/-- Model of `digitalRead(pin)`: flush input, write the `dr` frame, flush, read one
line. -/
def digitalRead_trace (pin : Int) : List Action :=
  [Action.flushInput, Action.write (build_cmd_str "dr" [toString pin]),
   Action.flush, Action.readLine]

/-- Model of `pinMode(pin, val)`: negate the pin when `val == "INPUT"`; flush input,
write the `pm` frame, flush. -/
def pinMode_trace (pin : Int) (val : String) : List Action :=
  let pin_ := if val = "INPUT" then -pin else pin
  [Action.flushInput, Action.write (build_cmd_str "pm" [toString pin_]), Action.flush]

/-- Model of `pinModePullUp(pin)`: flush input, write the `pp` frame, flush. -/
def pinModePullUp_trace (pin : Int) : List Action :=
  [Action.flushInput, Action.write (build_cmd_str "pp" [toString pin]), Action.flush]

/-- Model of `I2Csetup(addr)`: flush input, write the `ac` frame, flush. -/
def I2Csetup_trace (addr : Int) : List Action :=
  [Action.flushInput, Action.write (build_cmd_str "ac" [toString addr]), Action.flush]

/-- Model of `I2Cwritehigh(addr)`: flush input, write the `hc` frame, flush. -/
def I2Cwritehigh_trace (addr : Int) : List Action :=
  [Action.flushInput, Action.write (build_cmd_str "hc" [toString addr]), Action.flush]

/-- Model of `I2Cwritelow(addr)`: flush input, write the `ic` frame, flush. -/
def I2Cwritelow_trace (addr : Int) : List Action :=
  [Action.flushInput, Action.write (build_cmd_str "ic" [toString addr]), Action.flush]

/-- Model of `I2CUnstick()`: the Python call passes `("")`, the empty string, which
is falsy, so the argument segment is empty; flush input, write the `un`
frame, flush, read one line. -/
def I2CUnstick_trace : List Action :=
  [Action.flushInput, Action.write (build_cmd_str "un" []), Action.flush, Action.readLine]

/-- Model of `I2CScan()` before its read loop: flush input, write the `ick` frame
(`("")` again passes the falsy empty string), flush. -/
def I2CScan_trace : List Action :=
  [Action.flushInput, Action.write (build_cmd_str "ick" []), Action.flush]

/-- Model of `ConfI2C(address, reg, highdata, lowdata)`: flush input, write the
`cic` frame, flush. -/
def ConfI2C_trace (address reg highdata lowdata : Int) : List Action :=
  [Action.flushInput,
   Action.write (build_cmd_str "cic"
     [toString address, toString reg, toString highdata, toString lowdata]),
   Action.flush]

/-- Model of `WriteI2C(address, reg, data)`: flush input, write the `wic` frame,
flush. -/
def WriteI2C_trace (address reg data : Int) : List Action :=
  [Action.flushInput,
   Action.write (build_cmd_str "wic" [toString address, toString reg, toString data]),
   Action.flush]

/-- Model of `getRegRaw(address, reg)`: flush input, write the `grr` frame, flush,
read one line. -/
def getRegRaw_trace (address reg : Int) : List Action :=
  [Action.flushInput, Action.write (build_cmd_str "grr" [toString address, toString reg]),
   Action.flush, Action.readLine]

/-- Model of `SoftReset()`: flush input, write the `res` frame, flush. -/
def SoftReset_trace : List Action :=
  [Action.flushInput, Action.write (build_cmd_str "res" []), Action.flush]

/-- Returns `true` iff the action sequence performs a `flushInput` before its
first `write`. -/
def clearsInputFirst : List Action → Bool
  | [] => false
  | Action.flushInput :: _ => true
  | Action.write _ :: _ => false
  | _ :: rest => clearsInputFirst rest

/-- C5 counterexample: `digitalWrite` does not clear the pending input
buffer before writing — its body is write-then-flush only. -/
theorem digitalWrite_does_not_clear_input :
    clearsInputFirst (digitalWrite_trace 13 "HIGH") = false := by decide

/-- C5 (amended): every pin/I2C operation except `digitalWrite` and
`analogWrite` clears the pending serial input buffer before writing the
encoded command; `digitalWrite` and `analogWrite` write without clearing
input. -/
theorem ops_clear_input_before_write (pin duty addr reg hi lo data : Int)
    (level mode : String) :
    clearsInputFirst (analogRead_trace pin) = true ∧
    clearsInputFirst (digitalRead_trace pin) = true ∧
    clearsInputFirst (pinMode_trace pin mode) = true ∧
    clearsInputFirst (pinModePullUp_trace pin) = true ∧
    clearsInputFirst (I2Csetup_trace addr) = true ∧
    clearsInputFirst (I2Cwritehigh_trace addr) = true ∧
    clearsInputFirst (I2Cwritelow_trace addr) = true ∧
    clearsInputFirst I2CUnstick_trace = true ∧
    clearsInputFirst I2CScan_trace = true ∧
    clearsInputFirst (ConfI2C_trace addr reg hi lo) = true ∧
    clearsInputFirst (WriteI2C_trace addr reg data) = true ∧
    clearsInputFirst (getRegRaw_trace addr reg) = true ∧
    clearsInputFirst SoftReset_trace = true ∧
    clearsInputFirst (digitalWrite_trace pin level) = false ∧
    clearsInputFirst (analogWrite_trace pin duty) = false := by
  refine ⟨rfl, rfl, rfl, rfl, rfl, rfl, rfl, rfl, rfl, rfl, rfl, rfl, rfl, rfl, rfl⟩

/-- C7: `digitalWrite` encodes the pin argument of the `dw` command as
`-p` when the level is `"LOW"` and as `p` unchanged when it is
`"HIGH"`. -/
theorem digitalWrite_pin_encoding (p : Int) (_hpos : 0 < p) :
    digitalWrite_trace p "LOW" =
      [Action.write (build_cmd_str "dw" [toString (-p)]), Action.flush] ∧
    digitalWrite_trace p "HIGH" =
      [Action.write (build_cmd_str "dw" [toString p]), Action.flush] := by
  constructor
  · simp [digitalWrite_trace]
  · simp [digitalWrite_trace]

/-- C7 witness at pin 5. -/
theorem digitalWrite_pin_encoding_witness :
    digitalWrite_trace 5 "LOW" =
      [Action.write (build_cmd_str "dw" [toString (-5 : Int)]), Action.flush] ∧
    digitalWrite_trace 5 "HIGH" =
      [Action.write (build_cmd_str "dw" [toString (5 : Int)]), Action.flush] :=
  digitalWrite_pin_encoding 5 (by decide)

/-- C8: `analogWrite` clamps the duty value into `[0, 255]` before
encoding: the value written is `min 255 (max 0 val)`, which is 255 for
`val > 255`, 0 for `val < 0`, and `val` unchanged otherwise. -/
theorem analogWrite_clamps (pin val : Int) :
    analogWrite_trace pin val =
      [Action.write (build_cmd_str "aw" [toString pin, toString (min 255 (max 0 val))]),
       Action.flush] := by
  have h : (if val > 255 then (255 : Int) else if val < 0 then 0 else val) =
      min 255 (max 0 val) := by
    split_ifs <;> omega
  simp only [analogWrite_trace, h]

/-! ### `close()` as a transition on the transport state -/

/-- The serial handle as seen by `close()`: its `isOpen()` flag and the
chronological list of physical actions performed on it. -/
structure SR where
  isOpen : Bool
  actions : List Action
deriving DecidableEq

/-- Model of `Arduino.close()`: if `self.sr.isOpen()` then `self.sr.flush()` and
`self.sr.close()`; otherwise do nothing. -/
def sr_close (s : SR) : SR :=
  if s.isOpen then
    { isOpen := false, actions := s.actions ++ [Action.flush, Action.closePort] }
  else s

/-- C9: `close()` is idempotent — a second `close()` changes nothing (in
particular it performs no second physical close), closing always leaves
the transport reporting closed, a `close()` on a closed transport performs
no action at all, and a `close()` on an open transport flushes and then
physically closes. -/
theorem close_idempotent (s : SR) (acts : List Action) :
    sr_close (sr_close s) = sr_close s ∧
    (sr_close s).isOpen = false ∧
    sr_close ⟨false, acts⟩ = ⟨false, acts⟩ ∧
    sr_close ⟨true, acts⟩ = ⟨false, acts ++ [Action.flush, Action.closePort]⟩ := by
  obtain ⟨b, l⟩ := s
  cases b <;> simp [sr_close]

/-! ### The `I2CScan` read loop

`I2CScan` runs `while (x != "done")`: read a line, strip CR/LF, and append
it to the result unless it equals `"done"`.  The loop is modelled
step-indexed over the stream `reads` of raw reply lines (a timed-out
`readline()` yields `""`, which the stream can also produce), with `i` the
index of the next line to read, `acc` the accumulated list `test`, and an
explicit fuel bound; `none` means the loop has not exited within `fuel`
reads. -/
def I2CScan_loop (reads : Nat → String) : Nat → List String → Nat → Option (List String)
  | _, _, 0 => none
  | i, acc, fuel + 1 =>
    let x := stripCRLF (reads i)
    if x = "done" then some acc
    else I2CScan_loop reads (i + 1) (acc ++ [x]) fuel

/-- The stripped reply lines accumulated after `n` iterations of the
`I2CScan` loop. -/
def scanAcc (reads : Nat → String) (n : Nat) : List String :=
  (List.range n).map (fun i => stripCRLF (reads i))

theorem I2CScan_loop_steps (reads : Nat → String) :
    ∀ (n : Nat) (acc : List String) (i : Nat) (fuel : Nat),
      (∀ j, j < n → stripCRLF (reads (i + j)) ≠ "done") →
      I2CScan_loop reads i acc (n + fuel) =
        I2CScan_loop reads (i + n)
          (acc ++ (List.range n).map (fun j => stripCRLF (reads (i + j)))) fuel := by
  intro n
  induction n with
  | zero => intro acc i fuel _; simp
  | succ n ih =>
    intro acc i fuel h
    have hx : stripCRLF (reads i) ≠ "done" := by
      have := h 0 (Nat.succ_pos n)
      simpa using this
    have hstep : I2CScan_loop reads i acc (n + 1 + fuel) =
        I2CScan_loop reads (i + 1) (acc ++ [stripCRLF (reads i)]) (n + fuel) := by
      have : n + 1 + fuel = (n + fuel) + 1 := by omega
      rw [this]
      simp [I2CScan_loop, hx]
    rw [hstep, ih (acc ++ [stripCRLF (reads i)]) (i + 1) fuel
      (fun j hj => by
        have := h (j + 1) (Nat.succ_lt_succ hj)
        simpa [Nat.add_assoc, Nat.add_comm 1 j] using this)]
    have harith : i + 1 + n = i + (n + 1) := by omega
    rw [harith]
    congr 1
    rw [List.append_assoc]
    congr 1
    rw [List.range_succ_eq_map]
    simp only [List.map_cons, List.map_map, List.singleton_append]
    congr 1
    simp
    intro a ha
    have hshift : i + 1 + a = i + (a + 1) := by omega
    rw [hshift]

theorem I2CScan_loop_exits_at_done (reads : Nat → String) (i : Nat)
    (hdone : stripCRLF (reads i) = "done")
    (hb : ∀ j, j < i → stripCRLF (reads j) ≠ "done") :
    I2CScan_loop reads 0 [] (i + 1) = some (scanAcc reads i) := by
  have h := I2CScan_loop_steps reads i [] 0 1 (fun j hj => by simpa using hb j hj)
  rw [h]
  simp only [Nat.zero_add, List.nil_append]
  show I2CScan_loop reads i (scanAcc reads i) 1 = some (scanAcc reads i)
  simp [I2CScan_loop, hdone]

/-- C6: the `I2CScan` loop reads lines one at a time, each stripped of
CR/LF, accumulating them, until a line equals exactly `"done"`; it then
returns the accumulated lines, with the terminator excluded. -/
theorem I2CScan_collects_until_done (reads : Nat → String) (i : Nat)
    (hdone : stripCRLF (reads i) = "done")
    (hb : ∀ j, j < i → stripCRLF (reads j) ≠ "done") :
    I2CScan_loop reads 0 [] (i + 1) = some (scanAcc reads i) :=
  I2CScan_loop_exits_at_done reads i hdone hb

/-- C6 witness: for reply lines `"addr1"`, `"addr2"`, `"done"` the result
is exactly `["addr1", "addr2"]`. -/
theorem I2CScan_collects_until_done_witness :
    I2CScan_loop (fun n => ["addr1", "addr2", "done"].getD n "") 0 [] 3 =
      some ["addr1", "addr2"] := by
  have h := I2CScan_collects_until_done (fun n => ["addr1", "addr2", "done"].getD n "") 2
    (by decide) (by decide)
  rw [h]
  decide

/-- C10: the `I2CScan` loop terminates only when some stripped line equals
`"done"`: if a first such line exists at index `i`, the loop exits after
reading it and returns the stripped lines preceding it; if no line ever
equals `"done"` (for example when every read times out and yields `""`),
the loop never exits for any fuel bound, and after `n` reads it has
appended every one of the first `n` stripped lines to its accumulator. -/
theorem I2CScan_termination_charact (reads : Nat → String) :
    ((∀ i, stripCRLF (reads i) ≠ "done") →
       (∀ fuel i acc, I2CScan_loop reads i acc fuel = none) ∧
       (∀ n fuel, I2CScan_loop reads 0 [] (n + fuel) =
          I2CScan_loop reads n (scanAcc reads n) fuel)) ∧
    (∀ i, stripCRLF (reads i) = "done" →
       (∀ j, j < i → stripCRLF (reads j) ≠ "done") →
       I2CScan_loop reads 0 [] (i + 1) = some (scanAcc reads i)) := by
  constructor
  · intro h
    constructor
    · intro fuel
      induction fuel with
      | zero => intro i acc; rfl
      | succ n ih =>
        intro i acc
        simp [I2CScan_loop, h i, ih]
    · intro n fuel
      have hsteps := I2CScan_loop_steps reads n [] 0 fuel (fun j _ => by simpa using h j)
      rw [hsteps]
      simp [scanAcc]
  · intro i hdone hb
    exact I2CScan_loop_exits_at_done reads i hdone hb

/-- C10 witness: a stream whose first line is `"done"` exits at once with
the empty accumulated list. -/
theorem I2CScan_termination_charact_witness :
    I2CScan_loop (fun _ => "done") 0 [] 1 = some [] := by
  have h := (I2CScan_termination_charact (fun _ => "done")).2 0 (by decide)
    (fun j hj => absurd hj (Nat.not_lt_zero j))
  rw [h]
  decide

/-! ### Port discovery (`find_port` and the discovering `__init__`) -/

/-- Model of `get_version(sr)`: write the `version` frame and flush; if the write
fails return `None`; otherwise read one line and strip CR/LF.  The
transport is abstracted by whether the write fails and by the raw reply
line it would produce. -/
def get_version (writeFails : Bool) (replyLine : String) : Option String :=
  if writeFails then none else some (stripCRLF replyLine)

/-- A candidate port as `find_port` observes it: either
`serial.Serial(p, baud, timeout)` raises (`SerialException`/`OSError`), or
it opens and the handshake behaves as `get_version writeFails replyLine`. -/
inductive PortBehavior
  | openFails
  | opens (writeFails : Bool) (replyLine : String)
deriving DecidableEq

/-- The handshake on this candidate replies with the literal `"version"`. -/
def portMatches : PortBehavior → Prop
  | .openFails => False
  | .opens wf reply => get_version wf reply = some "version"

instance : DecidablePred portMatches := fun p =>
  match p with
  | .openFails => isFalse (fun h => h)
  | .opens wf reply => inferInstanceAs (Decidable (get_version wf reply = some "version"))

/-- Events the scan performs on candidate `i`: opened its transport /
closed its transport. -/
inductive ScanEvent
  | opened (i : Nat)
  | closedCand (i : Nat)
deriving DecidableEq

/-- The `find_port` loop, with `i` the index of the current candidate:
a candidate that fails to open is skipped; an open candidate whose
handshake reply is not `'version'` is closed and the loop continues; a
matching candidate is returned at once. -/
def find_port_go (i : Nat) : List PortBehavior → Option Nat × List ScanEvent
  | [] => (none, [])
  | PortBehavior.openFails :: rest => find_port_go (i + 1) rest
  | PortBehavior.opens wf reply :: rest =>
    if get_version wf reply ≠ some "version" then
      let r := find_port_go (i + 1) rest
      (r.1, ScanEvent.opened i :: ScanEvent.closedCand i :: r.2)
    else (some i, [ScanEvent.opened i])

/-- Model of `find_port(baud, timeout)` over the enumerated candidates: the bound
candidate (or `None`) together with the open/close events performed. -/
def find_port (ports : List PortBehavior) : Option Nat × List ScanEvent :=
  find_port_go 0 ports

/-- Model of `Arduino.__init__` in the discovery path (no pre-opened connection,
no explicit port): run `find_port`; if it returns `None`, raise
`ValueError("Could not find port.")`, else keep the bound port. -/
def Arduino_init (ports : List PortBehavior) : Except String Nat :=
  match (find_port ports).1 with
  | some i => Except.ok i
  | none => Except.error "Could not find port."

/-- The event trace of scanning a run of candidates none of which binds,
starting at index `k`: each candidate that opens is opened and then
immediately closed before the next one is tried. -/
def pairedEvents (k : Nat) : List PortBehavior → List ScanEvent
  | [] => []
  | PortBehavior.openFails :: rest => pairedEvents (k + 1) rest
  | PortBehavior.opens _ _ :: rest =>
    ScanEvent.opened k :: ScanEvent.closedCand k :: pairedEvents (k + 1) rest

theorem find_port_go_spec (ports : List PortBehavior) :
    ∀ (k i : Nat), i < ports.length →
      portMatches (ports.getD i PortBehavior.openFails) →
      (∀ j, j < i → ¬ portMatches (ports.getD j PortBehavior.openFails)) →
      find_port_go k ports =
        (some (k + i), pairedEvents k (ports.take i) ++ [ScanEvent.opened (k + i)]) := by
  induction ports with
  | nil => intro k i hi _ _; exact absurd hi (Nat.not_lt_zero i)
  | cons p rest ih =>
    intro k i hi hm hb
    cases i with
    | zero =>
      cases p with
      | openFails => exact absurd hm (fun h => h)
      | opens wf reply =>
        have hv : get_version wf reply = some "version" := hm
        simp [find_port_go, hv, pairedEvents]
    | succ j =>
      have hb0 : ¬ portMatches p := by
        have := hb 0 (Nat.succ_pos j)
        simpa using this
      have hmr : portMatches (rest.getD j PortBehavior.openFails) := by
        simpa using hm
      have hbr : ∀ j', j' < j → ¬ portMatches (rest.getD j' PortBehavior.openFails) := by
        intro j' hj'
        have := hb (j' + 1) (Nat.succ_lt_succ hj')
        simpa using this
      have hrec := ih (k + 1) j (by simpa using hi) hmr hbr
      have harith : k + 1 + j = k + (j + 1) := by omega
      cases p with
      | openFails =>
        have hstep : find_port_go k (PortBehavior.openFails :: rest) =
            find_port_go (k + 1) rest := by
          simp [find_port_go]
        rw [hstep, hrec, harith]
        simp [pairedEvents]
      | opens wf reply =>
        have hv : get_version wf reply ≠ some "version" := hb0
        have hstep : find_port_go k (PortBehavior.opens wf reply :: rest) =
            ((find_port_go (k + 1) rest).1,
             ScanEvent.opened k :: ScanEvent.closedCand k ::
               (find_port_go (k + 1) rest).2) := by
          simp [find_port_go, hv]
        rw [hstep, hrec, harith]
        simp [pairedEvents]

/-- C1: discovery tries the candidates in order and binds to the first
candidate whose handshake reply, after stripping CR/LF, equals the literal
`"version"`; the event trace is exactly an opened/closed pair for every
candidate before it that opened (each closed before the next is tried),
followed by the opening of the bound candidate — so every mismatching
opened candidate was closed and no candidate after the match is tried. -/
theorem find_port_binds_first_match (ports : List PortBehavior) (i : Nat)
    (hi : i < ports.length)
    (hm : portMatches (ports.getD i PortBehavior.openFails))
    (hb : ∀ j, j < i → ¬ portMatches (ports.getD j PortBehavior.openFails)) :
    find_port ports =
      (some i, pairedEvents 0 (ports.take i) ++ [ScanEvent.opened i]) := by
  have h := find_port_go_spec ports 0 i hi hm hb
  simpa [find_port] using h

/-- C1 witness — the spec's discovery scenario: candidate 0 fails to open,
candidate 1 opens but replies `"garbage"`, candidate 2 opens and replies
`"version"`: discovery binds candidate 2 and has closed candidate 1. -/
theorem find_port_binds_first_match_witness :
    find_port [PortBehavior.openFails, PortBehavior.opens false "garbage",
        PortBehavior.opens false "version"] =
      (some 2, [ScanEvent.opened 1, ScanEvent.closedCand 1, ScanEvent.opened 2]) := by
  have h := find_port_binds_first_match
    [PortBehavior.openFails, PortBehavior.opens false "garbage",
      PortBehavior.opens false "version"] 2 (by decide) (by decide) (by decide)
  rw [h]
  decide

theorem find_port_go_nomatch (ports : List PortBehavior) :
    ∀ k, (∀ j, j < ports.length → ¬ portMatches (ports.getD j PortBehavior.openFails)) →
      find_port_go k ports = (none, pairedEvents k ports) := by
  induction ports with
  | nil => intro k _; rfl
  | cons p rest ih =>
    intro k h
    have h0 : ¬ portMatches p := by
      have := h 0 (Nat.succ_pos _)
      simpa using this
    have hrest := ih (k + 1) (fun j hj => by
      have := h (j + 1) (Nat.succ_lt_succ hj)
      simpa using this)
    cases p with
    | openFails =>
      have hstep : find_port_go k (PortBehavior.openFails :: rest) =
          find_port_go (k + 1) rest := by
        simp [find_port_go]
      rw [hstep, hrest]
      simp [pairedEvents]
    | opens wf reply =>
      have hv : get_version wf reply ≠ some "version" := h0
      have hstep : find_port_go k (PortBehavior.opens wf reply :: rest) =
          ((find_port_go (k + 1) rest).1,
           ScanEvent.opened k :: ScanEvent.closedCand k ::
             (find_port_go (k + 1) rest).2) := by
        simp [find_port_go, hv]
      rw [hstep, hrest]
      simp [pairedEvents]

/-- C2: when every candidate either fails to open or gives a non-matching
handshake reply, the discovering constructor raises the explicit
`ValueError("Could not find port.")` rather than yielding a session, and
the scan's event trace pairs every opened candidate with its close — no
connection is left open. -/
theorem discovery_failure_raises (ports : List PortBehavior)
    (hb : ∀ j, j < ports.length → ¬ portMatches (ports.getD j PortBehavior.openFails)) :
    Arduino_init ports = Except.error "Could not find port." ∧
    find_port ports = (none, pairedEvents 0 ports) := by
  have h := find_port_go_nomatch ports 0 hb
  have hfp : find_port ports = (none, pairedEvents 0 ports) := h
  refine ⟨?_, hfp⟩
  simp [Arduino_init, hfp]

/-- C2 witness: one candidate fails to open and one replies `"garbage"`:
the constructor raises and the garbage candidate was opened then closed. -/
theorem discovery_failure_raises_witness :
    Arduino_init [PortBehavior.openFails, PortBehavior.opens false "garbage"] =
      Except.error "Could not find port." ∧
    find_port [PortBehavior.openFails, PortBehavior.opens false "garbage"] =
      (none, [ScanEvent.opened 1, ScanEvent.closedCand 1]) := by
  have h := discovery_failure_raises
    [PortBehavior.openFails, PortBehavior.opens false "garbage"] (by decide)
  exact ⟨h.1, by rw [h.2]; decide⟩

end ArduinoSpec
